import Mathlib

/-!
Verification development for the Heimdall LLM-assisted SQL rewriter
(repository TXSQL-LLM).  The repository ships five C++ headers
(`logical_plan.h`, `semantic_validator.h`, `heimdall_optimizer.h`,
`llm_client.h`, `prompt_builder.h`) whose implementations live behind
pimpl pointers and are not part of the source tree; the specification
(spec.md) describes the intended behaviour of those implementations.
Where a definition below embeds code that is present in the headers
(data-model shapes, default values of `OptimizationStrategy`), it is
translated from the header text.  Where only a declaration is present,
the definition is modelled from the specification and its doc comment
says so explicitly.
-/

namespace Heimdall

/-- Expression variant tags, from enum class ExprType in logical_plan.h. -/
inductive ExprType where
  | COLUMN_REF | LITERAL | BINARY_OP | UNARY_OP | FUNCTION | SUBQUERY_EXPR
  | CASE_EXPR | IN_EXPR | EXISTS_EXPR | UNKNOWN_EXPR
  deriving DecidableEq, Repr

/-- Name of an expression tag, used by the deterministic JSON rendering. -/
def exprTypeName : ExprType → String
  | .COLUMN_REF => "COLUMN_REF"
  | .LITERAL => "LITERAL"
  | .BINARY_OP => "BINARY_OP"
  | .UNARY_OP => "UNARY_OP"
  | .FUNCTION => "FUNCTION"
  | .SUBQUERY_EXPR => "SUBQUERY_EXPR"
  | .CASE_EXPR => "CASE_EXPR"
  | .IN_EXPR => "IN_EXPR"
  | .EXISTS_EXPR => "EXISTS_EXPR"
  | .UNKNOWN_EXPR => "UNKNOWN_EXPR"

/-- Expression tree node: class ExpressionNode of logical_plan.h, with a
variant tag, an operator name, a literal value payload and a list of
children. -/
inductive ExpressionNode where
  | mk (type : ExprType) (op : String) (value : String)
      (children : List ExpressionNode)

/-- Variant tag of an expression node. -/
def ExpressionNode.etype : ExpressionNode → ExprType
  | .mk t _ _ _ => t

/-- Operator or function name of an expression node. -/
def ExpressionNode.op : ExpressionNode → String
  | .mk _ o _ _ => o

/-- Literal value payload of an expression node. -/
def ExpressionNode.value : ExpressionNode → String
  | .mk _ _ v _ => v

/-- Children of an expression node. -/
def ExpressionNode.children : ExpressionNode → List ExpressionNode
  | .mk _ _ _ cs => cs

mutual

/-- Modelled from the spec: ExpressionNode::toJson is only declared in
logical_plan.h; spec section 4.1 fixes a deterministic, whitespace-free
object with field order type, op, value, children. -/
def ExpressionNode.toJson : ExpressionNode → String
  | .mk t o v cs =>
      "\x7b\"type\":\"" ++ exprTypeName t ++ "\",\"op\":\"" ++ o ++
        "\",\"value\":\"" ++ v ++ "\",\"children\":[" ++ exprJsonList cs ++ "]\x7d"

/-- Comma-separated JSON renderings of a list of expression nodes. -/
def exprJsonList : List ExpressionNode → String
  | [] => ""
  | [c] => c.toJson
  | c :: c2 :: cs => c.toJson ++ "," ++ exprJsonList (c2 :: cs)

end

mutual

/-- Structural equality on expression trees: ExpressionNode::equals of
logical_plan.h compares tag, operator, value and children positionally
(spec section 4.1). -/
def exprBeq : ExpressionNode → ExpressionNode → Bool
  | .mk t o v cs, .mk t2 o2 v2 cs2 =>
      t == t2 && o == o2 && v == v2 && exprBeqList cs cs2

/-- Positional structural equality on lists of expression trees. -/
def exprBeqList : List ExpressionNode → List ExpressionNode → Bool
  | [], [] => true
  | c :: cs, d :: ds => exprBeq c d && exprBeqList cs ds
  | _, _ => false

end

/-- Lexicographic total order on the JSON renderings of two expression
nodes; spec section 4.1 orders commutative children by this order. -/
def exprLe (a b : ExpressionNode) : Prop := a.toJson ≤ b.toJson

instance : DecidableRel exprLe := fun a b => String.decidableLE a.toJson b.toJson

instance : IsTrans ExpressionNode exprLe := ⟨fun _ _ _ h1 h2 => le_trans h1 h2⟩

instance : IsTotal ExpressionNode exprLe := ⟨fun a b => le_total a.toJson b.toJson⟩

/-- Children of a commutative operator sorted by the lexicographic order
on their JSON renderings (spec section 4.1). -/
def sortExprs (l : List ExpressionNode) : List ExpressionNode :=
  l.insertionSort exprLe

/-- Commutative operators recognised by canonicalization (spec 4.1). -/
def commutativeOps : List String := ["=", "+", "*", "AND", "OR"]

/-- Whether a node tagged t with operator o is a commutative combination. -/
def isCommutative (t : ExprType) (o : String) : Bool :=
  t == .BINARY_OP && commutativeOps.contains o

/-- Whether an expression is the literal TRUE (booleans are lowercase in
canonical literal form, spec section 3). -/
def isTrueLit (e : ExpressionNode) : Bool :=
  e.etype == .LITERAL && e.value == "true"

/-- Whether an expression is the literal FALSE. -/
def isFalseLit (e : ExpressionNode) : Bool :=
  e.etype == .LITERAL && e.value == "false"

/-- The canonical FALSE literal produced by constant folding NOT TRUE. -/
def falseLit : ExpressionNode := .mk .LITERAL "" "false" []

/-- Whether an expression is a NOT node with exactly one child. -/
def isNotShaped (e : ExpressionNode) : Bool :=
  e.etype == .UNARY_OP && e.op == "NOT" && e.children.length == 1

/-- First child of an expression node (the node itself when childless);
used to collapse a double negation. -/
def ExpressionNode.firstChild : ExpressionNode → ExpressionNode
  | .mk _ _ _ (d :: _) => d
  | e => e

/-- Removal of AND-with-TRUE and OR-with-FALSE identities (spec 4.1
constant folding); other operators keep their children unchanged. -/
def identityFilter (o : String) (cs : List ExpressionNode) : List ExpressionNode :=
  if o = "AND" then cs.filter (fun c => !isTrueLit c)
  else if o = "OR" then cs.filter (fun c => !isFalseLit c)
  else cs

/-- Folding step for a NOT node whose children are already canonical:
NOT TRUE becomes FALSE and a double negation collapses (spec 4.1). -/
def notFold (v : String) (cs : List ExpressionNode) : ExpressionNode :=
  match cs with
  | [] => .mk .UNARY_OP "NOT" v []
  | [c] =>
      if isTrueLit c then falseLit
      else if isNotShaped c then c.firstChild
      else .mk .UNARY_OP "NOT" v [c]
  | c1 :: c2 :: rest => .mk .UNARY_OP "NOT" v (c1 :: c2 :: rest)

/-- An equality comparison between x and a constant, with the two
children in canonical order; used by IN expansion (spec 4.4). -/
def eqPair (x c : ExpressionNode) : ExpressionNode :=
  .mk .BINARY_OP "=" "" (sortExprs [x, c])

/-- Expansion of x IN (c1, ..., ck) with k at most 8 and all ci literal
into the canonical OR chain of equalities (spec 4.4, InExpansion); the
resulting disjunction is ordered as CommutativeJoin orders it. -/
def inExpand (o v : String) (cs : List ExpressionNode) : ExpressionNode :=
  match cs with
  | [] => .mk .IN_EXPR o v []
  | [x] => .mk .IN_EXPR o v [x]
  | x :: c1 :: rest =>
      if (c1 :: rest).all (fun c => c.etype == .LITERAL) ∧ rest.length + 1 ≤ 8 then
        .mk .BINARY_OP "OR" "" (sortExprs ((c1 :: rest).map (eqPair x)))
      else .mk .IN_EXPR o v (x :: c1 :: rest)

/-- One canonicalization step applied at a node whose children have
already been canonicalized: NOT folding, IN expansion, then commutative
ordering with identity removal (spec 4.1 and 4.4). -/
def canonStep (t : ExprType) (o v : String) (cs : List ExpressionNode) : ExpressionNode :=
  if t = .UNARY_OP ∧ o = "NOT" then notFold v cs
  else if t = .IN_EXPR then inExpand o v cs
  else if isCommutative t o then .mk t o v (sortExprs (identityFilter o cs))
  else .mk t o v cs

mutual

/-- Modelled from the spec: ExpressionNode::canonicalize is only declared
in logical_plan.h.  Spec section 4.1: canonicalization returns a new tree
with commutative operators ordered by the JSON lexicographic order on
children, double negation collapsed, NOT TRUE folded to FALSE, AND/OR
identities removed; spec 4.4 adds IN expansion before commutative
ordering.  Literal payloads are already in canonical form by the data
model invariant of spec section 3, so they are not renormalized here. -/
def canonExpr : ExpressionNode → ExpressionNode
  | .mk t o v cs => canonStep t o v (canonList cs)

/-- Pointwise canonicalization of a list of expression trees. -/
def canonList : List ExpressionNode → List ExpressionNode
  | [] => []
  | c :: cs => canonExpr c :: canonList cs

end

mutual

/-- Values of all COLUMN_REF descendants of an expression (the node
itself included); the column-reference analysis the canonicalization
rules of spec 4.4 consult. -/
def exprColRefs : ExpressionNode → List String
  | .mk t _ v cs => (if t = .COLUMN_REF then [v] else []) ++ exprColRefsList cs

/-- Column references of a list of expressions. -/
def exprColRefsList : List ExpressionNode → List String
  | [] => []
  | c :: cs => exprColRefs c ++ exprColRefsList cs

end

/-- Table qualifier of a column name: the part before the first dot of a
qualified name such as t.c, and none for an unqualified name (on which
the side analysis must conservatively fail). -/
def qualifierOf (s : String) : Option String :=
  if s.toList.contains '.' then
    some (String.mk (s.toList.takeWhile (fun ch => ch ≠ '.')))
  else none

/-- Whether every column referenced by an expression is qualified with
one of the given tables; the reading of spec 4.4's side condition that a
condition references only columns from one side. -/
def condRefsOnly (c : ExpressionNode) (tables : List String) : Bool :=
  (exprColRefs c).all fun v =>
    match qualifierOf v with
    | some q => tables.contains q
    | none => false

/-- An AND combination of two conditions, used when a pushed-down filter
is composed with an existing one (spec 4.4, PredicatePushdown). -/
def andExpr (a b : ExpressionNode) : ExpressionNode :=
  .mk .BINARY_OP "AND" "" [a, b]

/-- Plan operator tags, from enum class PlanNodeType in logical_plan.h. -/
inductive PlanNodeType where
  | SCAN | JOIN | FILTER | PROJECT | AGGREGATE
  | SORT | SUBQUERY | UNION | LIMIT | UNKNOWN
  deriving DecidableEq, Repr

/-- Name of a plan tag, used by the deterministic JSON rendering. -/
def planTypeName : PlanNodeType → String
  | .SCAN => "SCAN"
  | .JOIN => "JOIN"
  | .FILTER => "FILTER"
  | .PROJECT => "PROJECT"
  | .AGGREGATE => "AGGREGATE"
  | .SORT => "SORT"
  | .SUBQUERY => "SUBQUERY"
  | .UNION => "UNION"
  | .LIMIT => "LIMIT"
  | .UNKNOWN => "UNKNOWN"

/-- Logical plan node: class LogicalPlanNode of logical_plan.h, with a
variant tag, a stable identifier, a table name, a join type, an optional
condition expression, projected and group-by column lists and a list of
child plan nodes (the shared_ptr condition may be null, hence Option). -/
inductive LogicalPlanNode where
  | mk (type : PlanNodeType) (id table_name join_type : String)
      (condition : Option ExpressionNode)
      (projected_columns group_by_columns : List String)
      (children : List LogicalPlanNode)

/-- Children of a plan node. -/
def LogicalPlanNode.children : LogicalPlanNode → List LogicalPlanNode
  | .mk _ _ _ _ _ _ _ cs => cs

/-- JSON rendering of an optional condition expression. -/
def condJson : Option ExpressionNode → String
  | none => "null"
  | some e => e.toJson

/-- Comma-separated quoted rendering of a list of column names. -/
def strListJson : List String → String
  | [] => ""
  | [s] => "\"" ++ s ++ "\""
  | s :: s2 :: ss => "\"" ++ s ++ "\"," ++ strListJson (s2 :: ss)

mutual

/-- Modelled from the spec: LogicalPlanNode::toJson is only declared in
logical_plan.h; spec section 4.2 requires a deterministic rendering
mirroring section 4.1, so every field appears in a fixed order with no
whitespace. -/
def LogicalPlanNode.toJson : LogicalPlanNode → String
  | .mk t i tn jt cond pc gc cs =>
      "\x7b\"type\":\"" ++ planTypeName t ++ "\",\"id\":\"" ++ i ++
        "\",\"table_name\":\"" ++ tn ++ "\",\"join_type\":\"" ++ jt ++
        "\",\"condition\":" ++ condJson cond ++ ",\"projected_columns\":[" ++
        strListJson pc ++ "],\"group_by_columns\":[" ++ strListJson gc ++
        "],\"children\":[" ++ planJsonList cs ++ "]\x7d"

/-- Comma-separated JSON renderings of a list of plan nodes. -/
def planJsonList : List LogicalPlanNode → String
  | [] => ""
  | [c] => c.toJson
  | c :: c2 :: cs => c.toJson ++ "," ++ planJsonList (c2 :: cs)

end

/-- Structural equality on optional condition expressions. -/
def condBeq : Option ExpressionNode → Option ExpressionNode → Bool
  | none, none => true
  | some a, some b => exprBeq a b
  | _, _ => false

mutual

/-- Structural equality on plan trees, comparing every field and the
children positionally; models the comparison used to detect that a
canonicalization pass changed nothing. -/
def planBeq : LogicalPlanNode → LogicalPlanNode → Bool
  | .mk t i tn jt cond pc gc cs, .mk t2 i2 tn2 jt2 cond2 pc2 gc2 cs2 =>
      t == t2 && i == i2 && tn == tn2 && jt == jt2 &&
        condBeq cond cond2 && pc == pc2 && gc == gc2 && planBeqList cs cs2

/-- Positional structural equality on lists of plan trees. -/
def planBeqList : List LogicalPlanNode → List LogicalPlanNode → Bool
  | [], [] => true
  | c :: cs, d :: ds => planBeq c d && planBeqList cs ds
  | _, _ => false

end

/-- Lexicographic total order on the JSON renderings of two plan nodes;
the CommutativeJoin rule (spec 4.4) orders join children by this order. -/
def planLe (a b : LogicalPlanNode) : Prop := a.toJson ≤ b.toJson

instance : DecidableRel planLe := fun a b => String.decidableLE a.toJson b.toJson

instance : IsTrans LogicalPlanNode planLe := ⟨fun _ _ _ h1 h2 => le_trans h1 h2⟩

instance : IsTotal LogicalPlanNode planLe := ⟨fun a b => le_total a.toJson b.toJson⟩

/-- Join children sorted by the lexicographic order on JSON renderings. -/
def sortPlans (l : List LogicalPlanNode) : List LogicalPlanNode :=
  l.insertionSort planLe

mutual

/-- Tables scanned inside a plan subtree: the table names of all SCAN
descendants, the notion of which columns a side can provide that the
side conditions of spec 4.4's rules consult. -/
def planTables : LogicalPlanNode → List String
  | .mk t _ tn _ _ _ _ cs => (if t = .SCAN then [tn] else []) ++ planTablesList cs

/-- Tables scanned inside a list of plan subtrees. -/
def planTablesList : List LogicalPlanNode → List String
  | [] => []
  | c :: cs => planTables c ++ planTablesList cs

end

/-- Composition of a pushed-down condition with the condition already on
a scan (spec 4.4, PredicatePushdown: compose via AND). -/
def mergeCond : Option ExpressionNode → ExpressionNode → ExpressionNode
  | none, c => c
  | some c0, c => andExpr c0 c

/-- Landing of a pushed-down filter on one join side: when the side is
already a filter the conditions are composed via AND, otherwise a new
filter node (carrying the pushed filter's fields) wraps the side
(spec 4.4, PredicatePushdown). -/
def addFilterInto (i : String) (pc gc : List String) (c : ExpressionNode) :
    LogicalPlanNode → LogicalPlanNode
  | .mk .FILTER li ltn ljt (some c0) lpc lgc lcs =>
      .mk .FILTER li ltn ljt (some (andExpr c0 c)) lpc lgc lcs
  | l => .mk .FILTER i "" "" (some c) pc gc [l]

/-- Modelled from the spec: the correlation analysis of spec 4.4's
SubqueryUnnesting precondition, that the condition references only
correlated columns from exactly one outer relation.  Every reference must
be table-qualified; the qualifiers not provided by the subquery's own
subtree must all name one table, which is returned. -/
def correlatedTable (c : ExpressionNode) (own : List String) : Option String :=
  let quals := (exprColRefs c).map qualifierOf
  if quals.all Option.isSome then
    match (quals.filterMap id).filter (fun q => !own.contains q) with
    | [] => none
    | q :: rest => if rest.all (fun r => r == q) then some q else none
  else none

/-- Modelled from the spec: the SubqueryUnnesting rule of spec 4.4.  A
Subquery node whose condition is correlated with exactly one outer
relation is replaced by a semijoin: a Join with join_type Semi whose left
side is a scan of the correlated relation and whose remaining children
are the subquery's.  Two precondition and action fragments are outside
the node-local rule interface of semantic_validator.h
(CanonicalizationRule::apply maps a node to a node): whether the subquery
is used as a scalar or IN predicate is a property of the enclosing
expression, and the metadata mark lives on LogicalPlan, which the rule
cannot reach; both are noted rather than modelled. -/
def subqueryUnnest (i tn jt : String) (cond : Option ExpressionNode)
    (pc gc : List String) (cs : List LogicalPlanNode) : LogicalPlanNode :=
  match cond with
  | some c =>
      match correlatedTable c (planTablesList cs) with
      | some tbl =>
          .mk .JOIN i tn "Semi" (some c) pc gc
            (.mk .SCAN (i ++ "_outer") tbl "" none [] [] [] :: cs)
      | none => .mk .SUBQUERY i tn jt (some c) pc gc cs
  | none => .mk .SUBQUERY i tn jt none pc gc cs

/-- Modelled from the spec: the PredicatePushdown rule of spec 4.4.  A
Filter directly above a Join whose condition references only columns from
one side is pushed to that side and composed with an existing filter via
AND; a Filter directly above a Scan whose condition references only the
scanned table is merged into the scan's condition via AND; otherwise the
filter is unchanged. -/
def pushdownFilter (i tn jt : String) (cond : Option ExpressionNode)
    (pc gc : List String) (cs : List LogicalPlanNode) : LogicalPlanNode :=
  match cond, cs with
  | some c, [j] =>
      match j with
      | .mk .JOIN ji jtn jjt jcond jpc jgc [l, r] =>
          if condRefsOnly c (planTables l) then
            .mk .JOIN ji jtn jjt jcond jpc jgc [addFilterInto i pc gc c l, r]
          else if condRefsOnly c (planTables r) then
            .mk .JOIN ji jtn jjt jcond jpc jgc [l, addFilterInto i pc gc c r]
          else .mk .FILTER i tn jt (some c) pc gc [j]
      | .mk .SCAN si stn sjt scond spc sgc scs =>
          if condRefsOnly c [stn] then
            .mk .SCAN si stn sjt (some (mergeCond scond c)) spc sgc scs
          else .mk .FILTER i tn jt (some c) pc gc [j]
      | j2 => .mk .FILTER i tn jt (some c) pc gc [j2]
  | c2, cs2 => .mk .FILTER i tn jt c2 pc gc cs2

/-- One canonicalization step at a plan node whose children and condition
are already canonical: the CommutativeJoin rule of spec 4.4 orders the
children of an inner or full join by the total order on their JSON
renderings, SubqueryUnnesting rewrites a correlated Subquery node to a
semijoin, and PredicatePushdown pushes a one-sided filter below the join
or into the scan it constrains; every other node is left unchanged.  The
AssociativeJoin rule is omitted: its precondition (no non-associative
filter) is the one spec section 9 marks as under-specified in source. -/
def planStep (t : PlanNodeType) (i tn jt : String) (cond : Option ExpressionNode)
    (pc gc : List String) (cs : List LogicalPlanNode) : LogicalPlanNode :=
  if t = .JOIN ∧ (jt = "Inner" ∨ jt = "Full") then
    .mk t i tn jt cond pc gc (sortPlans cs)
  else if t = .SUBQUERY then subqueryUnnest i tn jt cond pc gc cs
  else if t = .FILTER then pushdownFilter i tn jt cond pc gc cs
  else .mk t i tn jt cond pc gc cs

mutual

/-- Modelled from the spec: the bottom-up canonicalization pass of spec
section 4.4 over a plan tree.  It canonicalizes the condition expression
of every node (spec 4.1, with IN expansion as part of expression
canonicalization) and applies the CommutativeJoin ordering, the
SubqueryUnnesting rewrite and the PredicatePushdown rewrite at each node;
only the AssociativeJoin rule is omitted, its precondition being the one
spec section 9 marks as under-specified in source. -/
def planPass : LogicalPlanNode → LogicalPlanNode
  | .mk t i tn jt cond pc gc cs =>
      planStep t i tn jt (cond.map canonExpr) pc gc (planPassList cs)

/-- Pointwise bottom-up pass over a list of plan trees. -/
def planPassList : List LogicalPlanNode → List LogicalPlanNode
  | [] => []
  | c :: cs => planPass c :: planPassList cs

end

/-- Iteration of the canonicalization pass to a fixpoint, with the fuel
playing the role of the safety cap of spec 4.4 (at most fuel further
passes are applied; when the plan stops changing it is returned). -/
def iterateCanon : Nat → LogicalPlanNode → LogicalPlanNode
  | 0, p => p
  | n + 1, p => if planBeq (planPass p) p then p else iterateCanon n (planPass p)

/-- The canonicalization safety cap of spec 4.4 (32 passes). -/
def canonCap : Nat := 32

/-- Logical plan: class LogicalPlan of logical_plan.h, a root plan node
(null when default-constructed, hence Option), the originating SQL text
and a metadata mapping (modelled as an association list). -/
structure LogicalPlan where
  root : Option LogicalPlanNode
  original_sql : String
  metadata : List (String × String)

/-- Modelled from the spec: LogicalPlan::canonicalize is only declared in
logical_plan.h; spec sections 3 and 4.4 make it the fixpoint of the full
bottom-up canonicalization pass, reached by iterating the pass up to the
safety cap; the SQL text and metadata are carried over unchanged. -/
def LogicalPlan.canonicalize (pl : LogicalPlan) : LogicalPlan :=
  LogicalPlan.mk (pl.root.map (iterateCanon canonCap)) pl.original_sql pl.metadata

/-- Modelled from the spec: LogicalPlan::toJsonString is only declared in
logical_plan.h; it is the deterministic serialization of the root plan
tree, the form whose byte equality STRICT validation compares. -/
def LogicalPlan.toJsonString (pl : LogicalPlan) : String :=
  match pl.root with
  | none => "null"
  | some r => r.toJson

/-- Validation result: struct ValidationResult of semantic_validator.h,
an equivalence flag, a confidence in the unit interval (C++ double,
modelled as a rational), a human-readable reason and a list of observed
structural differences. -/
structure ValidationResult where
  is_equivalent : Bool
  confidence : ℚ
  reason : String
  differences : List String
  deriving DecidableEq, Repr

/-- Whether a plan is marked as containing an unsupported fragment: spec
4.4 has unrecognized fragments set metadata unsupported to true on the
containing plan. -/
def planUnsupported (pl : LogicalPlan) : Bool :=
  pl.metadata.lookup "unsupported" == some "true"

/-- Modelled from the spec: the STRICT branch of
SemanticValidator::validatePlans, whose body is behind the pimpl pointer
of semantic_validator.h.  Spec sections 4.4 and 4.5: an
unsupported-fragment mark on either plan forces the verdict to be
non-equivalent in STRICT mode; otherwise equivalent iff the canonical
forms are byte-identical under the deterministic serialization; the
confidence is exactly 1 when equivalent and exactly 0 when not, with
differences enumerated only on a non-equivalent verdict. -/
def validatePlansStrict (p1 p2 : LogicalPlan) : ValidationResult :=
  if planUnsupported p1 || planUnsupported p2 then
    ValidationResult.mk false 0 "unsupported_fragment" ["unsupported fragment present"]
  else if p1.canonicalize.toJsonString = p2.canonicalize.toJsonString then
    ValidationResult.mk true 1 "equivalent" []
  else
    ValidationResult.mk false 0 "not_equivalent" ["canonical plan trees differ"]

/-- Canonicalization with divergence detection: iterate the pass up to
the safety cap and fail when the result is still not a fixpoint (spec
4.4 and the failure contract of spec 4.5).  The pass is a parameter so
that custom rules registered through
SemanticValidator::registerRule are covered. -/
def canonChecked (pass : LogicalPlanNode → LogicalPlanNode) :
    Nat → LogicalPlanNode → Option LogicalPlanNode
  | 0, p => if planBeq (pass p) p then some p else none
  | n + 1, p => if planBeq (pass p) p then some p else canonChecked pass n (pass p)

/-- Modelled from the spec: SemanticValidator::validate is only declared
in semantic_validator.h.  It extracts both plans through the plan
extractor boundary (a parameter here, since the extractor is an external
collaborator per spec 4.3), canonicalizes each with divergence checking,
and compares the canonical serializations; extraction failure yields
reason extraction_failed and exceeding the canonicalization cap yields
reason canonicalization_diverged, both with confidence 0 and an empty
differences list (spec 4.5, failure contract). -/
def validate (pass : LogicalPlanNode → LogicalPlanNode)
    (extract : String → Option LogicalPlanNode)
    (original_sql rewritten_sql : String) : ValidationResult :=
  match extract original_sql, extract rewritten_sql with
  | some p1, some p2 =>
      match canonChecked pass canonCap p1, canonChecked pass canonCap p2 with
      | some c1, some c2 =>
          if c1.toJson = c2.toJson then
            ValidationResult.mk true 1 "equivalent" []
          else
            ValidationResult.mk false 0 "not_equivalent" ["canonical plan trees differ"]
      | _, _ => ValidationResult.mk false 0 "canonicalization_diverged" []
  | _, _ => ValidationResult.mk false 0 "extraction_failed" []

/-- Selection policies: enum OptimizationStrategy::SelectionMode of
heimdall_optimizer.h. -/
inductive SelectionMode where
  | BEST_COST | FIRST_VALID | CONSERVATIVE
  deriving DecidableEq, Repr

/-- Optimization strategy: struct OptimizationStrategy of
heimdall_optimizer.h (C++ doubles modelled as rationals, the C++ int
cost threshold as an integer and the candidate bound as a natural). -/
structure OptimizationStrategy where
  enable_for_subqueries : Bool
  enable_for_complex_joins : Bool
  min_estimated_cost : Int
  max_candidates : Nat
  validation_timeout_sec : ℚ
  selection_mode : SelectionMode
  min_improvement_ratio : ℚ
  deriving DecidableEq, Repr

/-- Default-constructed OptimizationStrategy, from the member-initializer
list of the default constructor in heimdall_optimizer.h lines 64 to 71. -/
def defaultStrategy : OptimizationStrategy :=
  OptimizationStrategy.mk true true 1000 5 10 SelectionMode.BEST_COST 1.2

/-- Features of a parsed query that gating consults: whether the SQL
contains a subquery, how many joins it contains, and the estimated cost
of the original plan (spec 4.8; parsing and cost estimation are external
collaborators, so their results are taken as given). -/
structure QueryInfo where
  has_subquery : Bool
  join_count : Nat
  estimated_cost : ℚ
  deriving DecidableEq, Repr

/-- Modelled from the spec: HeimdallOptimizer::shouldOptimize is only
declared in heimdall_optimizer.h.  Spec 4.8, gating: true iff the
enable-flag is set, and the query has a subquery with
enable_for_subqueries set or at least 3 joins with
enable_for_complex_joins set, and the original estimated cost reaches
min_estimated_cost. -/
def shouldOptimize (enabled : Bool) (s : OptimizationStrategy) (q : QueryInfo) : Bool :=
  enabled &&
    ((q.has_subquery && s.enable_for_subqueries) ||
      (decide (3 ≤ q.join_count) && s.enable_for_complex_joins)) &&
    decide ((s.min_estimated_cost : ℚ) ≤ q.estimated_cost)

/-- Modelled from the spec: HeimdallOptimizer::validateCandidates is only
declared in heimdall_optimizer.h.  Spec 4.8 step 3: each candidate is
validated against the original in order and the non-equivalent ones are
discarded. -/
def validateCandidates (pass : LogicalPlanNode → LogicalPlanNode)
    (extract : String → Option LogicalPlanNode)
    (original_sql : String) (candidates : List String) : List String :=
  candidates.filter fun c => (validate pass extract original_sql c).is_equivalent

/-- A surviving candidate paired with its estimated cost. -/
structure Candidate where
  sql : String
  cost : ℚ
  deriving DecidableEq, Repr

/-- The candidate with the lowest estimated cost (the earliest on ties). -/
def bestByCost : List Candidate → Option Candidate
  | [] => none
  | c :: cs =>
      match bestByCost cs with
      | none => some c
      | some b => if b.cost < c.cost then some b else some c

/-- Modelled from the spec: HeimdallOptimizer::selectBestCandidate is
only declared in heimdall_optimizer.h.  Spec 4.8 step 5: BestCost takes
the cheapest validated candidate, FirstValid the first in generation
order, Conservative the cheapest among those whose improvement ratio
original_cost / candidate_cost reaches min_improvement_ratio. -/
def selectBest (mode : SelectionMode) (min_ratio orig_cost : ℚ)
    (cands : List Candidate) : Option Candidate :=
  match mode with
  | .BEST_COST => bestByCost cands
  | .FIRST_VALID => cands.head?
  | .CONSERVATIVE => bestByCost (cands.filter fun c => min_ratio ≤ orig_cost / c.cost)

/-- Optimization result: struct OptimizationResult of
heimdall_optimizer.h (wall time and the per-stage statistics block are
not modelled; costs and the ratio are rationals for the C++ doubles). -/
structure OptimizationResult where
  optimized : Bool
  original_sql : String
  optimized_sql : String
  estimated_cost_original : ℚ
  estimated_cost_optimized : ℚ
  improvement_ratio : ℚ
  reason : String
  deriving DecidableEq, Repr

/-- A no-op result: the original SQL is returned unchanged with a
diagnostic reason and improvement ratio 1 (spec sections 3 and 7). -/
def noOpResult (sql : String) (oc : ℚ) (reason : String) : OptimizationResult :=
  OptimizationResult.mk false sql sql oc oc 1 reason

/-- Environment of one optimization call: the inputs the orchestrator
receives from its external collaborators (spec section 6).  qinfo is none
when plan extraction for the incoming query fails; deadline_exceeded
abstracts the overall-deadline clock of spec section 5. -/
structure OptEnv where
  sql : String
  enabled : Bool
  strategy : OptimizationStrategy
  qinfo : Option QueryInfo
  provider_available : Bool
  raw_candidates : List String
  extract : String → Option LogicalPlanNode
  cost : String → ℚ
  deadline_exceeded : Bool

/-- Modelled from the spec: HeimdallOptimizer::optimize is only declared
in heimdall_optimizer.h; it is modelled here in three stages, of which
this is the last.  Spec 4.8 steps 5 and 6: apply the selection policy to
the validated, costed candidates and enforce the minimum-improvement
gate; when no candidate is chosen or the improvement is insufficient the
original SQL is returned as a no-op with a diagnostic reason. -/
def choosePhase (sql : String) (s : OptimizationStrategy) (origCost : ℚ)
    (withCosts : List Candidate) : OptimizationResult :=
  (selectBest s.selection_mode s.min_improvement_ratio origCost withCosts).elim
    (noOpResult sql origCost "no_valid_candidate")
    (fun c =>
      if origCost / c.cost < s.min_improvement_ratio then
        noOpResult sql origCost "no_improvement"
      else
        OptimizationResult.mk true sql c.sql origCost c.cost
          (origCost / c.cost) "optimized")

/-- Pipeline for a query whose plan was extracted: gating, deadline and
provider checks, then candidate validation, costing and selection
(spec 4.8 steps 2 to 6 and the failure policy of spec 7). -/
def gatedPhase (env : OptEnv) (q : QueryInfo) : OptimizationResult :=
  if !shouldOptimize env.enabled env.strategy q then
    noOpResult env.sql q.estimated_cost "not_eligible"
  else if env.deadline_exceeded then
    noOpResult env.sql q.estimated_cost "deadline_exceeded"
  else if !env.provider_available then
    noOpResult env.sql q.estimated_cost "provider_unavailable"
  else
    choosePhase env.sql env.strategy q.estimated_cost
      ((validateCandidates planPass env.extract env.sql
          (env.raw_candidates.take env.strategy.max_candidates)).map
        fun s => Candidate.mk s (env.cost s))

/-- Orchestrated optimization of one query: extraction, gating and the
candidate pipeline, with the no-op contract on every failure path. -/
def optimize (env : OptEnv) : OptimizationResult :=
  match env.qinfo with
  | none => noOpResult env.sql 0 "extraction_failed"
  | some q => gatedPhase env q

/-- A one-node scan plan used as a concrete test plan. -/
def wScan : LogicalPlanNode := LogicalPlanNode.mk .SCAN "s1" "t" "" none [] [] []

/-- A concrete extractor mapping every SQL text to the test scan plan. -/
def wExtract : String → Option LogicalPlanNode := fun _ => some wScan

/-- A concrete environment in which the pipeline succeeds: the query is
gated in, one candidate is generated, it validates against the original
and it is 200 times cheaper. -/
def wEnv : OptEnv :=
  OptEnv.mk "SELECT A" true defaultStrategy (some (QueryInfo.mk true 0 2000)) true
    ["SELECT B"] wExtract (fun s => if s = "SELECT A" then 2000 else 10) false

/-- A concrete plan over the test scan, not marked unsupported. -/
def wPlanA : LogicalPlan := LogicalPlan.mk (some wScan) "SELECT 1" []

/-- A concrete plan marked as containing an unsupported fragment. -/
def wUnsup : LogicalPlan :=
  LogicalPlan.mk (some wScan) "SELECT U" [("unsupported", "true")]

/-- A left-deep chain of n Left joins over a scan of table a, each level
joining a scan of table b; deep enough chains make a pushed-down filter
need more passes than the safety cap allows. -/
def wJoinChain : Nat → LogicalPlanNode
  | 0 => .mk .SCAN "" "a" "" none [] [] []
  | n + 1 =>
      .mk .JOIN "" "" "Left" none [] []
        [wJoinChain n, .mk .SCAN "" "b" "" none [] [] []]

/-- A filter over a 34-join chain whose condition constrains only the
innermost scan: PredicatePushdown sinks it one join per pass, so
canonicalization does not reach a fixpoint within the 32-pass cap. -/
def wDeep : LogicalPlan :=
  LogicalPlan.mk
    (some (.mk .FILTER "" "" "" (some (.mk .COLUMN_REF "" "a.c" [])) [] []
      [wJoinChain 34]))
    "SELECT D" []

/-- An expression is canonical when the canonicalization pass fixes it;
the strengthened invariant records, for a canonical NOT node, that its
child is canonical, is not the TRUE literal and is not itself a NOT
node, which is what makes a second pass a no-op. -/
def GoodExpr (e : ExpressionNode) : Prop :=
  canonExpr e = e ∧
    ∀ vv i, e = ExpressionNode.mk .UNARY_OP "NOT" vv [i] →
      canonExpr i = i ∧ isTrueLit i = false ∧ isNotShaped i = false

/-! Helper lemmas. -/

theorem exprInd (P : ExpressionNode → Prop)
    (h : ∀ t o v cs, (∀ c ∈ cs, P c) → P (ExpressionNode.mk t o v cs)) :
    ∀ e, P e := by
  have main : ∀ n (e : ExpressionNode), sizeOf e ≤ n → P e := by
    intro n
    induction n with
    | zero =>
        intro e he
        cases e with
        | mk t o v cs => simp only [ExpressionNode.mk.sizeOf_spec] at he; omega
    | succ n ih =>
        intro e he
        cases e with
        | mk t o v cs =>
            apply h
            intro c hc
            apply ih
            have h1 := List.sizeOf_lt_of_mem hc
            simp only [ExpressionNode.mk.sizeOf_spec] at he
            omega
  exact fun e => main (sizeOf e) e (le_refl _)

theorem canonList_eq_map : ∀ cs : List ExpressionNode, canonList cs = cs.map canonExpr
  | [] => rfl
  | c :: cs => by rw [canonList, List.map, canonList_eq_map cs]

theorem canonList_eq_self (cs : List ExpressionNode)
    (h : ∀ c ∈ cs, canonExpr c = c) : canonList cs = cs := by
  rw [canonList_eq_map]
  exact List.map_congr_left h |>.trans (List.map_id cs)

theorem exprJsonList_congr (l1 : List ExpressionNode) : ∀ l2 : List ExpressionNode,
    l1.map ExpressionNode.toJson = l2.map ExpressionNode.toJson →
    exprJsonList l1 = exprJsonList l2 := by
  induction l1 with
  | nil =>
      intro l2 h
      cases l2 with
      | nil => rfl
      | cons d ds => simp at h
  | cons c cs ih =>
      intro l2 h
      cases l2 with
      | nil => simp at h
      | cons d ds =>
          simp only [List.map, List.cons.injEq] at h
          cases cs with
          | nil =>
              cases ds with
              | nil => simp only [exprJsonList, h.1]
              | cons d2 ds2 => simp at h
          | cons c2 cs2 =>
              cases ds with
              | nil =>
                  exact absurd h.2 (by simp)
              | cons d2 ds2 =>
                  rw [exprJsonList, exprJsonList, h.1, ih (d2 :: ds2) h.2]

theorem sortExprs_perm (l : List ExpressionNode) : List.Perm (sortExprs l) l :=
  List.perm_insertionSort exprLe l

theorem mem_sortExprs {l : List ExpressionNode} {x : ExpressionNode} :
    x ∈ sortExprs l ↔ x ∈ l :=
  (sortExprs_perm l).mem_iff

theorem sortExprs_sorted (l : List ExpressionNode) : List.Sorted exprLe (sortExprs l) :=
  List.sorted_insertionSort exprLe l

theorem sortExprs_of_sorted {l : List ExpressionNode}
    (h : List.Sorted exprLe l) : sortExprs l = l :=
  List.Sorted.insertionSort_eq h

theorem sortExprs_idem (l : List ExpressionNode) : sortExprs (sortExprs l) = sortExprs l :=
  sortExprs_of_sorted (sortExprs_sorted l)

theorem canonExpr_mk (t : ExprType) (o v : String) (cs : List ExpressionNode) :
    canonExpr (ExpressionNode.mk t o v cs) = canonStep t o v (canonList cs) := by
  rw [canonExpr]

theorem isNotShaped_iff (e : ExpressionNode) :
    isNotShaped e = true ↔ ∃ vv i, e = ExpressionNode.mk .UNARY_OP "NOT" vv [i] := by
  cases e with
  | mk t o v cs =>
      simp only [isNotShaped, ExpressionNode.etype, ExpressionNode.op,
        ExpressionNode.children, Bool.and_eq_true, beq_iff_eq,
        List.length_eq_one, ExpressionNode.mk.injEq]
      constructor
      · rintro ⟨⟨ht, ho⟩, i, hi⟩
        exact ⟨v, i, ht, ho, rfl, hi⟩
      · rintro ⟨vv, i, ht, ho, hv, hcs⟩
        exact ⟨⟨ht, ho⟩, i, hcs⟩

theorem identityFilter_subset {o : String} {cs : List ExpressionNode} {x : ExpressionNode}
    (h : x ∈ identityFilter o cs) : x ∈ cs := by
  unfold identityFilter at h
  split_ifs at h <;> first
    | exact (List.mem_filter.mp h).1
    | exact h

theorem identityFilter_stable (o : String) (cs : List ExpressionNode) :
    identityFilter o (identityFilter o cs) = identityFilter o cs := by
  unfold identityFilter
  split_ifs <;> first
    | exact List.filter_eq_self.mpr fun x hx => (List.mem_filter.mp hx).2
    | rfl

theorem identityFilter_perm {o : String} {cs ds : List ExpressionNode}
    (h : List.Perm cs ds) : List.Perm (identityFilter o cs) (identityFilter o ds) := by
  unfold identityFilter
  split_ifs <;> first
    | exact h.filter _
    | exact h

theorem isCommutative_type {t : ExprType} {o : String}
    (h : isCommutative t o = true) : t = ExprType.BINARY_OP := by
  simp only [isCommutative, Bool.and_eq_true, beq_iff_eq] at h
  exact h.1

theorem falseLit_good : GoodExpr falseLit := by
  constructor
  · rw [falseLit, canonExpr_mk, canonList]
    simp [canonStep, isCommutative, commutativeOps]
  · intro vv i hEq
    exact absurd hEq (by simp [falseLit])

theorem notFold_good (v : String) (cs : List ExpressionNode)
    (h : ∀ c ∈ cs, GoodExpr c) : GoodExpr (notFold v cs) := by
  match cs with
  | [] =>
      constructor
      · rw [notFold, canonExpr_mk, canonList]
        simp [canonStep, notFold]
      · intro vv i hEq
        rw [notFold] at hEq
        simp at hEq
  | [c] =>
      have hc := h c (by simp)
      rw [notFold]
      by_cases hTrue : isTrueLit c = true
      · simp only [hTrue, if_true]
        exact falseLit_good
      · rw [if_neg (by simp [hTrue])]
        by_cases hNot : isNotShaped c = true
        · rw [if_pos hNot]
          obtain ⟨w, d, rfl⟩ := (isNotShaped_iff c).mp hNot
          have hd := hc.2 w d rfl
          rw [ExpressionNode.firstChild]
          refine ⟨hd.1, ?_⟩
          intro vv i hEq
          subst hEq
          rw [(isNotShaped_iff _).mpr ⟨vv, i, rfl⟩] at hd
          simp at hd
        · rw [if_neg hNot]
          constructor
          · rw [canonExpr_mk, canonList, canonList, hc.1]
            rw [canonStep, if_pos ⟨rfl, rfl⟩, notFold]
            rw [if_neg (by simp [hTrue]), if_neg hNot]
          · intro vv i hEq
            have h1 : c = i := by
              have := (ExpressionNode.mk.injEq _ _ _ _ _ _ _ _).mp hEq
              simpa using this.2.2.2
            subst h1
            refine ⟨hc.1, by simpa using hTrue, by simpa using hNot⟩
  | c1 :: c2 :: rest =>
      constructor
      · rw [notFold, canonExpr_mk, canonList_eq_self _ fun c hcm => (h c hcm).1]
        rw [canonStep, if_pos ⟨rfl, rfl⟩, notFold]
      · intro vv i hEq
        rw [notFold] at hEq
        have := (ExpressionNode.mk.injEq _ _ _ _ _ _ _ _).mp hEq
        simp at this

theorem isFalseLit_eqPair (x c : ExpressionNode) : isFalseLit (eqPair x c) = false := by
  rw [eqPair, isFalseLit]
  simp [ExpressionNode.etype]

theorem eqPair_good (x c : ExpressionNode) (hx : canonExpr x = x) (hc : canonExpr c = c) :
    canonExpr (eqPair x c) = eqPair x c := by
  rw [eqPair, canonExpr_mk]
  rw [canonList_eq_self _ fun e he => by
    have h1 := mem_sortExprs.mp he
    simp only [List.mem_cons, List.mem_singleton, List.not_mem_nil, or_false] at h1
    rcases h1 with rfl | rfl
    · exact hx
    · exact hc]
  rw [canonStep, if_neg (by simp), if_neg (by simp)]
  rw [if_pos (by simp [isCommutative, commutativeOps])]
  rw [identityFilter, if_neg (by simp), if_neg (by simp), sortExprs_idem]

theorem inExpand_good (o v : String) (cs : List ExpressionNode)
    (h : ∀ c ∈ cs, GoodExpr c) : GoodExpr (inExpand o v cs) := by
  match cs with
  | [] =>
      constructor
      · rw [inExpand, canonExpr_mk, canonList]
        rw [canonStep, if_neg (by simp), if_pos rfl, inExpand]
      · intro vv i hEq
        rw [inExpand] at hEq
        simp at hEq
  | [x] =>
      constructor
      · rw [inExpand, canonExpr_mk, canonList, canonList, (h x (by simp)).1]
        rw [canonStep, if_neg (by simp), if_pos rfl, inExpand]
      · intro vv i hEq
        rw [inExpand] at hEq
        simp at hEq
  | x :: c1 :: rest =>
      rw [inExpand]
      by_cases hCond : ((c1 :: rest).all (fun c => c.etype == .LITERAL) = true ∧ rest.length + 1 ≤ 8)
      · rw [if_pos hCond]
        constructor
        · have hGoodL : ∀ e ∈ sortExprs ((c1 :: rest).map (eqPair x)), canonExpr e = e := by
            intro e he
            rcases List.mem_map.mp (mem_sortExprs.mp he) with ⟨c, hcm, rfl⟩
            exact eqPair_good x c (h x (by simp)).1 (h c (by simp [hcm])).1
          rw [canonExpr_mk, canonList_eq_self _ hGoodL]
          rw [canonStep, if_neg (by simp), if_neg (by simp)]
          rw [if_pos (by simp [isCommutative, commutativeOps])]
          rw [identityFilter, if_neg (by simp), if_pos rfl]
          rw [List.filter_eq_self.mpr fun e he => ?_, sortExprs_idem]
          rcases List.mem_map.mp (mem_sortExprs.mp he) with ⟨c, hcm, rfl⟩
          simp [isFalseLit_eqPair]
        · intro vv i hEq
          simp at hEq
      · rw [if_neg hCond]
        constructor
        · rw [canonExpr_mk, canonList_eq_self _ fun c hcm => (h c hcm).1]
          rw [canonStep, if_neg (by simp), if_pos rfl, inExpand, if_neg hCond]
        · intro vv i hEq
          simp at hEq

theorem sortFilter_good (t : ExprType) (o v : String) (cs : List ExpressionNode)
    (hcomm : isCommutative t o = true)
    (h : ∀ c ∈ cs, canonExpr c = c) :
    canonExpr (ExpressionNode.mk t o v (sortExprs (identityFilter o cs))) =
      ExpressionNode.mk t o v (sortExprs (identityFilter o cs)) := by
  have ht := isCommutative_type hcomm
  subst ht
  rw [canonExpr_mk, canonList_eq_self _ fun c hcm =>
    h c (identityFilter_subset (mem_sortExprs.mp hcm))]
  rw [canonStep, if_neg (by simp), if_neg (by simp), if_pos hcomm]
  have hFix : identityFilter o (sortExprs (identityFilter o cs)) =
      sortExprs (identityFilter o cs) := by
    unfold identityFilter
    split_ifs
    · exact List.filter_eq_self.mpr fun x hx =>
        (List.mem_filter.mp (mem_sortExprs.mp hx)).2
    · exact List.filter_eq_self.mpr fun x hx =>
        (List.mem_filter.mp (mem_sortExprs.mp hx)).2
    · rfl
  rw [hFix, sortExprs_idem]

theorem canonStep_good (t : ExprType) (o v : String) (cs : List ExpressionNode)
    (h : ∀ c ∈ cs, GoodExpr c) : GoodExpr (canonStep t o v cs) := by
  rw [canonStep]
  split_ifs with h1 h2 h3
  · exact notFold_good v cs h
  · exact inExpand_good o v cs h
  · refine ⟨sortFilter_good t o v cs h3 fun c hcm => (h c hcm).1, ?_⟩
    intro vv i hEq
    have ht := isCommutative_type h3
    rw [ht] at hEq
    exact absurd ((ExpressionNode.mk.injEq _ _ _ _ _ _ _ _).mp hEq).1 (by simp)
  · constructor
    · rw [canonExpr_mk, canonList_eq_self _ fun c hcm => (h c hcm).1]
      rw [canonStep, if_neg h1, if_neg h2, if_neg h3]
    · intro vv i hEq
      have := (ExpressionNode.mk.injEq _ _ _ _ _ _ _ _).mp hEq
      exact absurd ⟨this.1, this.2.1⟩ h1

theorem canonExpr_good : ∀ e, GoodExpr (canonExpr e) := by
  refine exprInd _ fun t o v cs ih => ?_
  rw [canonExpr_mk, canonList_eq_map]
  refine canonStep_good t o v _ fun x hx => ?_
  rcases List.mem_map.mp hx with ⟨c, hcm, rfl⟩
  exact ih c hcm

theorem canonExpr_idem (e : ExpressionNode) : canonExpr (canonExpr e) = canonExpr e :=
  (canonExpr_good e).1

theorem planInd (P : LogicalPlanNode → Prop)
    (h : ∀ t i tn jt cond pc gc cs, (∀ c ∈ cs, P c) →
      P (LogicalPlanNode.mk t i tn jt cond pc gc cs)) :
    ∀ p, P p := by
  have main : ∀ n (p : LogicalPlanNode), sizeOf p ≤ n → P p := by
    intro n
    induction n with
    | zero =>
        intro p hp
        cases p with
        | mk t i tn jt cond pc gc cs =>
            simp only [LogicalPlanNode.mk.sizeOf_spec] at hp; omega
    | succ n ih =>
        intro p hp
        cases p with
        | mk t i tn jt cond pc gc cs =>
            apply h
            intro c hc
            apply ih
            have h1 := List.sizeOf_lt_of_mem hc
            simp only [LogicalPlanNode.mk.sizeOf_spec] at hp
            omega
  exact fun p => main (sizeOf p) p (le_refl _)

theorem planPass_mk (t : PlanNodeType) (i tn jt : String) (cond : Option ExpressionNode)
    (pc gc : List String) (cs : List LogicalPlanNode) :
    planPass (LogicalPlanNode.mk t i tn jt cond pc gc cs) =
      planStep t i tn jt (cond.map canonExpr) pc gc (planPassList cs) := by
  rw [planPass]

theorem planPassList_eq_map : ∀ cs : List LogicalPlanNode,
    planPassList cs = cs.map planPass
  | [] => rfl
  | c :: cs => by rw [planPassList, List.map, planPassList_eq_map cs]

theorem planPassList_eq_self (cs : List LogicalPlanNode)
    (h : ∀ c ∈ cs, planPass c = c) : planPassList cs = cs := by
  rw [planPassList_eq_map]
  exact List.map_congr_left h |>.trans (List.map_id cs)

theorem sortPlans_perm (l : List LogicalPlanNode) : List.Perm (sortPlans l) l :=
  List.perm_insertionSort planLe l

theorem mem_sortPlans {l : List LogicalPlanNode} {x : LogicalPlanNode} :
    x ∈ sortPlans l ↔ x ∈ l :=
  (sortPlans_perm l).mem_iff

theorem sortPlans_sorted (l : List LogicalPlanNode) : List.Sorted planLe (sortPlans l) :=
  List.sorted_insertionSort planLe l

theorem sortPlans_idem (l : List LogicalPlanNode) : sortPlans (sortPlans l) = sortPlans l :=
  List.Sorted.insertionSort_eq (sortPlans_sorted l)

theorem condCanon_idem (cond : Option ExpressionNode) :
    (cond.map canonExpr).map canonExpr = cond.map canonExpr := by
  cases cond with
  | none => rfl
  | some e => simp [canonExpr_idem]

theorem exprBeqList_iff (cs : List ExpressionNode)
    (ih : ∀ c ∈ cs, ∀ b, exprBeq c b = true ↔ c = b) :
    ∀ ds, exprBeqList cs ds = true ↔ cs = ds := by
  induction cs with
  | nil =>
      intro ds
      cases ds <;> simp [exprBeqList]
  | cons c cs ihl =>
      intro ds
      cases ds with
      | nil => simp [exprBeqList]
      | cons d ds =>
          rw [exprBeqList]
          simp only [Bool.and_eq_true, List.cons.injEq]
          rw [ih c (by simp), ihl (fun c2 hc2 b => ih c2 (by simp [hc2]) b) ds]

theorem exprBeq_iff : ∀ a b : ExpressionNode, exprBeq a b = true ↔ a = b := by
  refine exprInd _ fun t o v cs ih b => ?_
  cases b with
  | mk t2 o2 v2 cs2 =>
      rw [exprBeq]
      simp only [Bool.and_eq_true, beq_iff_eq, ExpressionNode.mk.injEq]
      rw [exprBeqList_iff cs ih cs2]
      tauto

theorem condBeq_iff (a b : Option ExpressionNode) : condBeq a b = true ↔ a = b := by
  cases a <;> cases b <;> simp [condBeq, exprBeq_iff]

theorem planBeqList_iff (cs : List LogicalPlanNode)
    (ih : ∀ c ∈ cs, ∀ b, planBeq c b = true ↔ c = b) :
    ∀ ds, planBeqList cs ds = true ↔ cs = ds := by
  induction cs with
  | nil =>
      intro ds
      cases ds <;> simp [planBeqList]
  | cons c cs ihl =>
      intro ds
      cases ds with
      | nil => simp [planBeqList]
      | cons d ds =>
          rw [planBeqList]
          simp only [Bool.and_eq_true, List.cons.injEq]
          rw [ih c (by simp), ihl (fun c2 hc2 b => ih c2 (by simp [hc2]) b) ds]

theorem planBeq_iff : ∀ a b : LogicalPlanNode, planBeq a b = true ↔ a = b := by
  refine planInd _ fun t i tn jt cond pc gc cs ih b => ?_
  cases b with
  | mk t2 i2 tn2 jt2 cond2 pc2 gc2 cs2 =>
      rw [planBeq]
      simp only [Bool.and_eq_true, beq_iff_eq, LogicalPlanNode.mk.injEq]
      rw [planBeqList_iff cs ih cs2, condBeq_iff]
      tauto

theorem iterateCanon_fixed {p : LogicalPlanNode} (h : planPass p = p) :
    ∀ n, iterateCanon n p = p
  | 0 => rfl
  | n + 1 => by rw [iterateCanon, if_pos ((planBeq_iff _ _).mpr h)]

theorem sortExprs_map_toJson_of_perm {l1 l2 : List ExpressionNode}
    (h : List.Perm l1 l2) :
    (sortExprs l1).map ExpressionNode.toJson = (sortExprs l2).map ExpressionNode.toJson := by
  have s1 : List.Sorted (· ≤ ·) ((sortExprs l1).map ExpressionNode.toJson) :=
    (sortExprs_sorted l1).map _ fun a b hab => hab
  have s2 : List.Sorted (· ≤ ·) ((sortExprs l2).map ExpressionNode.toJson) :=
    (sortExprs_sorted l2).map _ fun a b hab => hab
  exact List.eq_of_perm_of_sorted
    ((((sortExprs_perm l1).trans h).trans (sortExprs_perm l2).symm).map _) s1 s2

/-! Claim theorems. -/

/-- C2, counterexample: canonicalization as claimed is not idempotent for
every plan.  On a filter over a 34-join chain, PredicatePushdown sinks
the filter one join per bottom-up pass, the 32-pass safety cap stops the
iteration before the fixpoint, and a second canonicalization advances the
plan further, so canonicalize (canonicalize P) differs from
canonicalize P. -/
theorem C2_canonicalize_cap_counterexample :
    ¬ (wDeep.canonicalize.canonicalize = wDeep.canonicalize) := by
  intro h
  have hr : (some (iterateCanon canonCap (iterateCanon canonCap
          (LogicalPlanNode.mk .FILTER "" "" ""
            (some (.mk .COLUMN_REF "" "a.c" [])) [] [] [wJoinChain 34]))) :
        Option LogicalPlanNode) =
      some (iterateCanon canonCap
        (LogicalPlanNode.mk .FILTER "" "" ""
          (some (.mk .COLUMN_REF "" "a.c" [])) [] [] [wJoinChain 34])) :=
    congrArg LogicalPlan.root h
  have hb := (planBeq_iff _ _).mpr (Option.some.inj hr)
  exact absurd hb (by decide)

/-- C2 (amended): canonicalization is idempotent on every plan whose
canonicalization reaches a fixpoint of the full bottom-up pass within the
32-pass safety cap; a plan whose pass is still changing at the cap (such
as the deep pushdown chain of the counterexample) is returned as-is and
escapes the invariant. -/
theorem C2_canonicalize_idempotent_within_cap (pl : LogicalPlan)
    (h : ∀ r, pl.root = some r →
      planPass (iterateCanon canonCap r) = iterateCanon canonCap r) :
    pl.canonicalize.canonicalize = pl.canonicalize := by
  rw [LogicalPlan.canonicalize, LogicalPlan.canonicalize]
  cases hr : pl.root with
  | none => rfl
  | some r =>
      simp only [Option.map_some']
      rw [iterateCanon_fixed (h r hr) canonCap]

/-- Witness for C2 at a concrete input: the scan-rooted plan reaches its
fixpoint immediately, and canonicalization is idempotent on it. -/
theorem C2_canonicalize_idempotent_within_cap_witness :
    (∀ r, wPlanA.root = some r →
      planPass (iterateCanon canonCap r) = iterateCanon canonCap r) ∧
    wPlanA.canonicalize.canonicalize = wPlanA.canonicalize := by
  have hfix : ∀ r, wPlanA.root = some r →
      planPass (iterateCanon canonCap r) = iterateCanon canonCap r := by
    intro r hr
    have h2 : some wScan = some r := hr
    cases Option.some.inj h2
    rfl
  exact ⟨hfix, C2_canonicalize_idempotent_within_cap wPlanA hfix⟩

/-- C3, counterexample: the claimed unconditional iff fails on the code
once the unsupported-fragment forcing of spec 4.4 is present.  A plan
marked unsupported compared with itself serializes byte-identically, yet
STRICT validation must return non-equivalent. -/
theorem C3_strict_counterexample :
    ¬ ((validatePlansStrict wUnsup wUnsup).is_equivalent = true ↔
      wUnsup.canonicalize.toJsonString = wUnsup.canonicalize.toJsonString) := by
  intro h
  exact absurd (h.mpr rfl) (by decide)

/-- C3 (amended): in STRICT mode, for plans not marked unsupported,
validatePlans returns equivalent exactly when the canonicalized forms
serialize byte-identically; an unsupported mark on either plan forces a
non-equivalent verdict; and the confidence is 1 when equivalent and 0
when not, never any intermediate value. -/
theorem C3_strict_mode_characterization (p1 p2 : LogicalPlan) :
    (planUnsupported p1 = false → planUnsupported p2 = false →
      ((validatePlansStrict p1 p2).is_equivalent = true ↔
        p1.canonicalize.toJsonString = p2.canonicalize.toJsonString)) ∧
    ((planUnsupported p1 = true ∨ planUnsupported p2 = true) →
      (validatePlansStrict p1 p2).is_equivalent = false) ∧
    (validatePlansStrict p1 p2).confidence =
      (if (validatePlansStrict p1 p2).is_equivalent = true then 1 else 0) := by
  rw [validatePlansStrict]
  by_cases hu : (planUnsupported p1 || planUnsupported p2) = true
  · rw [if_pos hu]
    refine ⟨?_, fun _ => rfl, by norm_num⟩
    intro h1 h2
    rw [h1, h2] at hu
    exact absurd hu (by simp)
  · rw [if_neg hu]
    simp only [Bool.or_eq_true, not_or, Bool.not_eq_true] at hu
    by_cases h : p1.canonicalize.toJsonString = p2.canonicalize.toJsonString
    · rw [if_pos h]
      exact ⟨fun _ _ => by simp [h], fun hor => by
        rcases hor with h1 | h1 <;> simp_all, by norm_num⟩
    · rw [if_neg h]
      exact ⟨fun _ _ => by simp [h], fun _ => rfl, by norm_num⟩

/-- Witness for C3 at concrete inputs: two unmarked scan plans satisfy
the iff, and a plan marked unsupported is forced non-equivalent. -/
theorem C3_strict_mode_characterization_witness :
    (planUnsupported wPlanA = false ∧
      ((validatePlansStrict wPlanA wPlanA).is_equivalent = true ↔
        wPlanA.canonicalize.toJsonString = wPlanA.canonicalize.toJsonString)) ∧
    (planUnsupported wUnsup = true ∧
      (validatePlansStrict wUnsup wPlanA).is_equivalent = false) :=
  ⟨⟨rfl, (C3_strict_mode_characterization wPlanA wPlanA).1 rfl rfl⟩,
    ⟨rfl, (C3_strict_mode_characterization wUnsup wPlanA).2.1 (Or.inl rfl)⟩⟩

/-- C4: canonicalizing a commutative combination (=, +, *, AND, OR) of a
fixed multiset of children yields byte-identical JSON regardless of the
order the children are given in, and the canonical children appear in the
lexicographic order of their JSON renderings. -/
theorem C4_commutative_children_json (t : ExprType) (o v : String)
    (cs ds : List ExpressionNode)
    (hcomm : isCommutative t o = true) (hperm : List.Perm cs ds) :
    (canonExpr (ExpressionNode.mk t o v cs)).toJson =
      (canonExpr (ExpressionNode.mk t o v ds)).toJson ∧
    List.Sorted (fun a b : String => a ≤ b)
      ((canonExpr (ExpressionNode.mk t o v cs)).children.map ExpressionNode.toJson) := by
  have ht := isCommutative_type hcomm
  subst ht
  rw [canonExpr_mk, canonExpr_mk, canonList_eq_map, canonList_eq_map]
  rw [canonStep, canonStep, if_neg (by simp), if_neg (by simp), if_pos hcomm,
    if_neg (by simp), if_neg (by simp), if_pos hcomm]
  have hp : List.Perm (identityFilter o (cs.map canonExpr))
      (identityFilter o (ds.map canonExpr)) :=
    identityFilter_perm (hperm.map canonExpr)
  have hmap := sortExprs_map_toJson_of_perm hp
  constructor
  · rw [ExpressionNode.toJson, ExpressionNode.toJson, exprJsonList_congr _ _ hmap]
  · rw [ExpressionNode.children]
    exact (sortExprs_sorted _).map _ fun a b hab => hab

/-- Witness for C4 at a concrete input: the two orders of a + b produce
the same canonical JSON rendering. -/
theorem C4_commutative_children_json_witness :
    (isCommutative ExprType.BINARY_OP "+" = true ∧
      List.Perm
        [ExpressionNode.mk .COLUMN_REF "" "a" [], ExpressionNode.mk .COLUMN_REF "" "b" []]
        [ExpressionNode.mk .COLUMN_REF "" "b" [], ExpressionNode.mk .COLUMN_REF "" "a" []]) ∧
    ((canonExpr (ExpressionNode.mk .BINARY_OP "+" ""
        [ExpressionNode.mk .COLUMN_REF "" "a" [], ExpressionNode.mk .COLUMN_REF "" "b" []])).toJson =
      (canonExpr (ExpressionNode.mk .BINARY_OP "+" ""
        [ExpressionNode.mk .COLUMN_REF "" "b" [], ExpressionNode.mk .COLUMN_REF "" "a" []])).toJson ∧
    List.Sorted (fun a b : String => a ≤ b)
      ((canonExpr (ExpressionNode.mk .BINARY_OP "+" ""
        [ExpressionNode.mk .COLUMN_REF "" "a" [],
          ExpressionNode.mk .COLUMN_REF "" "b" []])).children.map ExpressionNode.toJson)) :=
  ⟨⟨rfl, List.Perm.swap _ _ _⟩,
    C4_commutative_children_json ExprType.BINARY_OP "+" "" _ _ rfl (List.Perm.swap _ _ _)⟩

/-- C10: the default-constructed OptimizationStrategy carries exactly the
header's member-initializer values, which govern gating and selection
whenever the caller never calls setStrategy. -/
theorem C10_default_strategy_values :
    defaultStrategy.enable_for_subqueries = true ∧
    defaultStrategy.enable_for_complex_joins = true ∧
    defaultStrategy.min_estimated_cost = 1000 ∧
    defaultStrategy.max_candidates = 5 ∧
    defaultStrategy.validation_timeout_sec = 10 ∧
    defaultStrategy.selection_mode = SelectionMode.BEST_COST ∧
    defaultStrategy.min_improvement_ratio = 1.2 :=
  ⟨rfl, rfl, rfl, rfl, rfl, rfl, rfl⟩

/-- C5: validation failure through extraction failure returns exactly the
extraction_failed result, and failure through a canonicalization that is
still changing at the iteration cap returns exactly the
canonicalization_diverged result, both with is_equivalent false,
confidence 0 and an empty differences list. -/
theorem C5_validate_failure_shape (pass : LogicalPlanNode → LogicalPlanNode)
    (extract : String → Option LogicalPlanNode) (o r : String) :
    ((extract o = none ∨ extract r = none) →
      validate pass extract o r = ValidationResult.mk false 0 "extraction_failed" []) ∧
    (∀ p1 p2, extract o = some p1 → extract r = some p2 →
      (canonChecked pass canonCap p1 = none ∨ canonChecked pass canonCap p2 = none) →
      validate pass extract o r =
        ValidationResult.mk false 0 "canonicalization_diverged" []) := by
  constructor
  · intro h
    rcases h with h | h
    · rw [validate, h]
    · rw [validate, h]
      cases extract o <;> rfl
  · intro p1 p2 h1 h2 hdiv
    simp only [validate, h1, h2]
    rcases hdiv with h | h
    · rw [h]
    · rw [h]
      cases canonChecked pass canonCap p1 <;> rfl

/-- Witness for C5 at concrete inputs: an extractor that always fails
yields the extraction_failed result, and a registered rule that grows the
plan on every pass makes canonicalization diverge. -/
theorem C5_validate_failure_shape_witness :
    validate planPass (fun _ => none) "SELECT 1" "SELECT 2" =
      ValidationResult.mk false 0 "extraction_failed" [] ∧
    validate (fun p => LogicalPlanNode.mk .UNKNOWN "" "" "" none [] [] [p])
        (fun _ => some wScan) "SELECT 1" "SELECT 2" =
      ValidationResult.mk false 0 "canonicalization_diverged" [] :=
  ⟨(C5_validate_failure_shape planPass (fun _ => none) "SELECT 1" "SELECT 2").1
      (Or.inl rfl),
    (C5_validate_failure_shape (fun p => LogicalPlanNode.mk .UNKNOWN "" "" "" none [] [] [p])
        (fun _ => some wScan) "SELECT 1" "SELECT 2").2
      wScan wScan rfl rfl (Or.inl rfl)⟩

/-- C6: shouldOptimize is true exactly when the optimizer is enabled, the
query has a subquery with the subquery trigger enabled or at least three
joins with the complex-join trigger enabled, and the estimated cost of
the original plan reaches the configured threshold. -/
theorem C6_shouldOptimize_iff (enabled : Bool) (s : OptimizationStrategy) (q : QueryInfo) :
    shouldOptimize enabled s q = true ↔
      (enabled = true ∧
        ((q.has_subquery = true ∧ s.enable_for_subqueries = true) ∨
          (3 ≤ q.join_count ∧ s.enable_for_complex_joins = true)) ∧
        (s.min_estimated_cost : ℚ) ≤ q.estimated_cost) := by
  rw [shouldOptimize]
  simp [Bool.and_eq_true, Bool.or_eq_true, and_assoc]

theorem bestByCost_mem : ∀ {l : List Candidate} {c : Candidate},
    bestByCost l = some c → c ∈ l := by
  intro l
  induction l with
  | nil => intro c h; exact absurd h (by simp [bestByCost])
  | cons a l ih =>
      intro c h
      rw [bestByCost] at h
      cases hb : bestByCost l with
      | none =>
          simp only [hb] at h
          exact List.mem_cons.mpr (Or.inl (Option.some.inj h).symm)
      | some b =>
          simp only [hb] at h
          by_cases hcost : b.cost < a.cost
          · rw [if_pos hcost] at h
            exact List.mem_cons.mpr (Or.inr (ih ((Option.some.inj h) ▸ hb)))
          · rw [if_neg hcost] at h
            exact List.mem_cons.mpr (Or.inl (Option.some.inj h).symm)

theorem selectBest_mem {mode : SelectionMode} {min_ratio orig_cost : ℚ}
    {l : List Candidate} {c : Candidate}
    (h : selectBest mode min_ratio orig_cost l = some c) : c ∈ l := by
  rw [selectBest.eq_def] at h
  cases mode with
  | BEST_COST => exact bestByCost_mem h
  | FIRST_VALID =>
      cases l with
      | nil => exact absurd h (by simp)
      | cons a l => exact List.mem_cons.mpr (Or.inl (Option.some.inj h).symm)
  | CONSERVATIVE => exact (List.mem_filter.mp (bestByCost_mem h)).1

/-- C7: under the Conservative selection policy, any chosen rewrite has
an improvement ratio original cost over candidate cost of at least
min_improvement_ratio. -/
theorem C7_conservative_improvement_bar (min_ratio orig_cost : ℚ)
    (cands : List Candidate) (c : Candidate)
    (h : selectBest SelectionMode.CONSERVATIVE min_ratio orig_cost cands = some c) :
    min_ratio ≤ orig_cost / c.cost := by
  rw [selectBest] at h
  have hm := bestByCost_mem h
  exact of_decide_eq_true (List.mem_filter.mp hm).2

unseal Rat.inv Rat.mul Rat.add Rat.sub Rat.ofScientific in
/-- Witness for C7 at a concrete input: with threshold 6/5 and original
cost 100, the candidate of cost 10 is chosen and meets the bar. -/
theorem C7_conservative_improvement_bar_witness :
    selectBest SelectionMode.CONSERVATIVE (6 / 5) 100 [Candidate.mk "c1" 10] =
      some (Candidate.mk "c1" 10) ∧
    (6 / 5 : ℚ) ≤ 100 / (Candidate.mk "c1" 10).cost :=
  ⟨by decide,
    C7_conservative_improvement_bar (6 / 5) 100 [Candidate.mk "c1" 10]
      (Candidate.mk "c1" 10) (by decide)⟩

/-- C8: optimize never propagates an error: whenever no rewrite is chosen
the result carries the original SQL unchanged, improvement ratio exactly
1 and a nonempty diagnostic reason. -/
theorem C8_optimize_noop_on_failure (env : OptEnv)
    (h : (optimize env).optimized = false) :
    (optimize env).optimized_sql = env.sql ∧
    (optimize env).improvement_ratio = 1 ∧
    (optimize env).reason ≠ "" := by
  cases hq : env.qinfo with
  | none => simp [optimize, hq, noOpResult]
  | some q =>
      have hopt : optimize env = gatedPhase env q := by rw [optimize, hq]
      rw [hopt] at h ⊢
      rw [gatedPhase] at h ⊢
      split_ifs at h ⊢
      · simp [noOpResult]
      · simp [noOpResult]
      · simp [noOpResult]
      · rw [choosePhase] at h ⊢
        cases hsel : selectBest env.strategy.selection_mode
            env.strategy.min_improvement_ratio q.estimated_cost
            ((validateCandidates planPass env.extract env.sql
                (env.raw_candidates.take env.strategy.max_candidates)).map
              fun s => Candidate.mk s (env.cost s)) with
        | none =>
            rw [hsel] at h
            simp [Option.elim, noOpResult]
        | some c =>
            rw [hsel] at h
            simp only [Option.elim] at h ⊢
            split_ifs at h ⊢
            simp_all [noOpResult]

/-- Witness for C8 at a concrete input: with plan extraction failed, the
orchestrator returns the original SQL with ratio 1 and a reason. -/
theorem C8_optimize_noop_on_failure_witness :
    ((optimize (OptEnv.mk "SELECT X" true defaultStrategy none true []
        (fun _ => none) (fun _ => 0) false)).optimized = false) ∧
    ((optimize (OptEnv.mk "SELECT X" true defaultStrategy none true []
        (fun _ => none) (fun _ => 0) false)).optimized_sql = "SELECT X" ∧
      (optimize (OptEnv.mk "SELECT X" true defaultStrategy none true []
        (fun _ => none) (fun _ => 0) false)).improvement_ratio = 1 ∧
      (optimize (OptEnv.mk "SELECT X" true defaultStrategy none true []
        (fun _ => none) (fun _ => 0) false)).reason ≠ "") :=
  ⟨rfl,
    C8_optimize_noop_on_failure
      (OptEnv.mk "SELECT X" true defaultStrategy none true []
        (fun _ => none) (fun _ => 0) false) rfl⟩

theorem choosePhase_optimized_sql {sql : String} {s : OptimizationStrategy}
    {oc : ℚ} {L : List Candidate}
    (h : (choosePhase sql s oc L).optimized = true) :
    ∃ c ∈ L, (choosePhase sql s oc L).optimized_sql = c.sql := by
  rw [choosePhase] at h ⊢
  cases hsel : selectBest s.selection_mode s.min_improvement_ratio oc L with
  | none =>
      rw [hsel] at h
      simp [Option.elim, noOpResult] at h
  | some c =>
      rw [hsel] at h
      simp only [Option.elim] at h ⊢
      split_ifs at h ⊢
      · simp [noOpResult] at h
      · exact ⟨c, selectBest_mem hsel, rfl⟩

/-- C1: a candidate survives validateCandidates only if the validator
judged it equivalent to the original, and any rewrite actually returned
by the orchestrator was judged equivalent to the original by the
validator. -/
theorem C1_accepted_candidates_validated :
    (∀ (pass : LogicalPlanNode → LogicalPlanNode)
        (extract : String → Option LogicalPlanNode)
        (original : String) (cands : List String) (c : String),
      c ∈ validateCandidates pass extract original cands →
      (validate pass extract original c).is_equivalent = true) ∧
    (∀ env : OptEnv, (optimize env).optimized = true →
      (validate planPass env.extract env.sql
        (optimize env).optimized_sql).is_equivalent = true) := by
  have part1 : ∀ (pass : LogicalPlanNode → LogicalPlanNode)
      (extract : String → Option LogicalPlanNode)
      (original : String) (cands : List String) (c : String),
      c ∈ validateCandidates pass extract original cands →
      (validate pass extract original c).is_equivalent = true := by
    intro pass extract original cands c hc
    rw [validateCandidates] at hc
    exact (List.mem_filter.mp hc).2
  refine ⟨part1, ?_⟩
  intro env hopt
  cases hq : env.qinfo with
  | none =>
      rw [optimize, hq] at hopt
      simp [noOpResult] at hopt
  | some q =>
      have heq : optimize env = gatedPhase env q := by rw [optimize, hq]
      rw [heq] at hopt ⊢
      rw [gatedPhase] at hopt ⊢
      split_ifs at hopt ⊢
      · simp [noOpResult] at hopt
      · simp [noOpResult] at hopt
      · simp [noOpResult] at hopt
      · obtain ⟨c, hcL, hsql⟩ := choosePhase_optimized_sql hopt
        rw [hsql]
        rcases List.mem_map.mp hcL with ⟨s0, hs0, rfl⟩
        exact part1 planPass env.extract env.sql _ s0 hs0

unseal Rat.inv Rat.mul Rat.add Rat.sub Rat.ofScientific in
/-- Witness for C1 at concrete inputs: in the concrete environment the
pipeline rewrites SELECT A into the surviving candidate SELECT B, and the
validator judged that candidate equivalent. -/
theorem C1_accepted_candidates_validated_witness :
    ("SELECT B" ∈ validateCandidates planPass wExtract "SELECT A" ["SELECT B"] ∧
      (optimize wEnv).optimized = true) ∧
    ((validate planPass wExtract "SELECT A" "SELECT B").is_equivalent = true ∧
      (validate planPass wEnv.extract wEnv.sql
        (optimize wEnv).optimized_sql).is_equivalent = true) :=
  ⟨⟨by decide, by decide⟩,
    C1_accepted_candidates_validated.1 planPass wExtract "SELECT A" ["SELECT B"]
      "SELECT B" (by decide),
    C1_accepted_candidates_validated.2 wEnv (by decide)⟩

end Heimdall
